import Mathlib

/-!
Verification of the llm-router gateway (Go) against its specification.

Shallow embedding of the relevant parts of the source tree:
  * `client/client.go` — per-key usage ledger and the stream `Recv` accounting;
  * `app/init.go` — group/provider construction and the selector `getClient`;
  * `config/config.go` — configuration records and `LoadConfig`;
  * `server/` (handler.go, models.go, compression.go) — HTTP routing, CORS
    preflight, bearer authentication, the chat-completions status mapping,
    the SSE relay loop and the compression middleware.

Go maps keyed by strings are embedded as association lists (first binding
wins on lookup, as Go map keys are unique); `int64` counters are embedded
as `Int` (the counters never approach the 64-bit range, so wrap-around is
not modelled); pointers that may be nil are embedded as `Option`.
-/

namespace LlmRouter

/-- Association-list lookup, embedding a Go `map[string]A` read: the first
binding for the key, if any. -/
def lookupAssoc {α : Type} : List (String × α) → String → Option α
  | [], _ => none
  | (k0, v) :: tl, k => if k0 = k then some v else lookupAssoc tl k

/-- Association-list update, embedding a Go `map[string]A` write `m[k] = v`:
replace the existing binding or append a fresh one. -/
def assocInsert {α : Type} : List (String × α) → String → α → List (String × α)
  | [], k, v => [(k, v)]
  | (k0, v0) :: tl, k, v =>
    if k0 = k then (k0, v) :: tl else (k0, v0) :: assocInsert tl k v

/-- Go map read with the zero value as default (`m[k]` on a missing key). -/
def lookupZero (l : List (String × Int)) (k : String) : Int :=
  (lookupAssoc l k).getD 0

/-! ## client package (src/client/client.go, final revision)

`KeyClient` holds one API credential and its per-model usage counters
(`modelUsage map[string]int64`). The wrapped `openai.Client` is external
IO-bound state and is not part of the embedding. -/

/-- KeyClient from `client/client.go`: one credential plus its per-model
usage map. -/
structure KeyClient where
  apiKey : String
  modelUsage : List (String × Int)
deriving DecidableEq

/-- IncrementUsage from `client/client.go`: `kc.modelUsage[model] += tokens`,
unconditionally (a missing key reads as 0 before the addition). -/
def KeyClient.IncrementUsage (kc : KeyClient) (model : String) (tokens : Int) : KeyClient :=
  { kc with modelUsage := assocInsert kc.modelUsage model (lookupZero kc.modelUsage model + tokens) }

/-- Usage from `client/client.go`: `return kc.modelUsage[model]` (0 when the
pair was never incremented). -/
def KeyClient.Usage (kc : KeyClient) (model : String) : Int :=
  lookupZero kc.modelUsage model

/-- ProviderClient from `client/client.go`: a provider name and its ordered
key clients. -/
structure ProviderClient where
  providerName : String
  keyClients : List KeyClient
deriving DecidableEq

/-- Delta payload of one streamed choice (`Delta.Content`,
`Delta.ReasoningContent` of `openai.ChatCompletionStreamResponse`). -/
structure ChunkDelta where
  content : String
  reasoningContent : String
deriving DecidableEq

/-- One choice of a streamed chunk (`FinishReason` is a string, empty when
absent). -/
structure ChunkChoice where
  finishReason : String
  delta : ChunkDelta
deriving DecidableEq

/-- Usage object optionally carried by a chunk (`Usage.TotalTokens`). -/
structure UsageInfo where
  totalTokens : Int
deriving DecidableEq

/-- One streamed response chunk (`openai.ChatCompletionStreamResponse`):
its choices and its optional usage object. -/
structure StreamChunk where
  choices : List ChunkChoice
  usage : Option UsageInfo
deriving DecidableEq

/-- Finish-signal test of `ChatCompletionStream.Recv` (client/client.go
lines 261-268). The Go code computes
`finish := len(choices) == 0; finish = finish || choices[0].FinishReason != "";
finish = finish || choices[0].Delta.Content+choices[0].Delta.ReasoningContent == ""`;
the `||` short-circuits, so `choices[0]` is only read when choices is
non-empty, which the match below reflects. -/
def isFinishSignal (resp : StreamChunk) : Bool :=
  match resp.choices with
  | [] => true
  | c :: _ => c.finishReason != "" || (c.delta.content ++ c.delta.reasoningContent) == ""

/-- Accounting effect of one successful `Recv` (client/client.go lines
255-280) on the pair (last_reported_usage `w.usage`, key client ledger):
on a finish signal carrying usage, add the positive part of
`totalTokens - w.usage` to both. -/
def recvStep (model : String) (st : Int × KeyClient) (resp : StreamChunk) : Int × KeyClient :=
  if isFinishSignal resp then
    match resp.usage with
    | some u =>
      let delta := u.totalTokens - st.1
      if delta > 0 then (st.1 + delta, st.2.IncrementUsage model delta) else st
    | none => st
  else st

/-- Accounting effect of a whole stream of successfully received chunks,
starting from `usage = 0` as `ChatCompletionStream` is constructed. -/
def processStream (model : String) (kc : KeyClient) (chunks : List StreamChunk) : Int × KeyClient :=
  chunks.foldl (recvStep model) (0, kc)

/-- Total-token report of a chunk, when present. -/
def chunkTotal (resp : StreamChunk) : Option Int :=
  resp.usage.map UsageInfo.totalTokens

/-- Cumulative totals reported by the finish-signal chunks that carry a
usage object, in stream order. -/
def streamTotals (chunks : List StreamChunk) : List Int :=
  chunks.filterMap (fun c => if isFinishSignal c then chunkTotal c else none)

/-- Ledger delta of one `Recv`, as the specification describes it:
`usage.total_tokens − last_reported_usage` when the chunk is a finish
signal, carries usage, and that difference is positive; 0 otherwise. -/
def recvDelta (last : Int) (resp : StreamChunk) : Int :=
  match chunkTotal resp with
  | some t => if isFinishSignal resp ∧ last < t then t - last else 0
  | none => 0

/-! ## app package (src/app/init.go) -/

/-- Model from `app/init.go`: one entry of the expansion of a group. -/
structure Model where
  weight : Int
  provider : String
  name : String
deriving DecidableEq

/-- Group from `app/init.go`: a client-facing name and its ordered entries. -/
structure Group where
  name : String
  models : List Model
deriving DecidableEq

/-- Selection state of `getClient` (app/init.go lines 179-182): the running
minimum usage (sentinel -1 before the first candidate) and the currently
selected provider, model and key client. -/
structure SelState where
  minUsage : Int
  provider : String
  model : String
  client : Option KeyClient
deriving DecidableEq

/-- Loop body of `getClient` (app/init.go lines 185-197): for each entry
whose provider is present in the clients map, scan its key clients and keep
the pair with the strictly smallest raw usage (first candidate wins ties). -/
def getClientFold (clients : List (String × ProviderClient)) (models : List Model) : SelState :=
  models.foldl
    (fun st m =>
      match lookupAssoc clients m.provider with
      | some pClient =>
        pClient.keyClients.foldl
          (fun st kc =>
            let usage := kc.Usage m.name
            if st.minUsage = -1 ∨ usage < st.minUsage then
              ⟨usage, m.provider, m.name, some kc⟩
            else st)
          st
      | none => st)
    ⟨-1, "", "", none⟩

/-- getClient from `app/init.go` lines 178-199: returns the selected
provider name, model name and key client (zero values — empty strings and
nil — when no candidate pair exists). -/
def getClient (clients : List (String × ProviderClient)) (models : List Model) :
    String × String × Option KeyClient :=
  let st := getClientFold clients models
  (st.provider, st.model, st.client)

/-- First loop of `getClientForGroup` (app/init.go lines 160-166): the
entries of the first group matching the name, `[]` when none matches. -/
def findGroupModels (groups : List Group) (name : String) : List Model :=
  match groups.find? (fun g => g.name == name) with
  | some g => g.models
  | none => []

/-- Key clients the selector sees for a provider name: the list of the provider
when the clients map has the name, `[]` otherwise (app/init.go line 186). -/
def providerKCs (clients : List (String × ProviderClient)) (p : String) : List KeyClient :=
  match lookupAssoc clients p with
  | some pc => pc.keyClients
  | none => []

/-- getClientForGroup from `app/init.go` lines 158-175: error only when the
group name is unknown or the group has no entries; otherwise whatever
`getClient` returns, with a nil error. -/
def getClientForGroup (groups : List Group) (clients : List (String × ProviderClient))
    (groupName : String) : Except String (String × String × Option KeyClient) :=
  let models := findGroupModels groups groupName
  if models.isEmpty then Except.error ("no models found for group: " ++ groupName)
  else Except.ok (getClient clients models)

/-- Outcome of `App.HandleRequest` (app/init.go lines 120-136) up to the
upstream call: either the resolution error is returned, or
`keyClient.ChatCompletion` is invoked on the resolved (possibly nil) key
client with the rewritten model. -/
inductive Dispatch where
  | fail (msg : String)
  | call (provider : String) (model : String) (keyClient : Option KeyClient)
deriving DecidableEq

/-- HandleRequest from `app/init.go` lines 120-136, up to the upstream call
(the same resolution feeds `HandleStreamRequest` at lines 139-155). -/
def appHandleRequest (groups : List Group) (clients : List (String × ProviderClient))
    (reqModel : String) : Dispatch :=
  match getClientForGroup groups clients reqModel with
  | Except.error e => Dispatch.fail e
  | Except.ok (p, m, kc) => Dispatch.call p m kc

/-! ## config package (src/config/config.go) and bootstrap (app/init.go, main.go) -/

/-- Model record of `config/config.go` (mapstructure `weight`, `provider`,
`name`). -/
structure CfgModel where
  weight : Int
  provider : String
  name : String
deriving DecidableEq

/-- Group record of `config/config.go` (mapstructure `name`, `models`). -/
structure CfgGroup where
  name : String
  models : List CfgModel
deriving DecidableEq

/-- Provider record of `config/config.go` (mapstructure `name`, `base_url`,
`api_keys`). -/
structure CfgProvider where
  name : String
  baseURL : String
  apiKeys : List String
deriving DecidableEq

/-- Config record of `config/config.go`. -/
structure Config where
  port : Int
  apiKey : String
  errorPenalty : Int
  requestPenalty : Int
  groups : List CfgGroup
  providers : List CfgProvider
deriving DecidableEq

/-- LoadConfig from `config/config.go` lines 35-46. The viper file read and
unmarshal are external IO; their outcome is the argument. LoadConfig adds no
check of its own: it fails exactly when reading or unmarshalling failed. -/
def LoadConfig (readResult : Except String Config) : Except String Config :=
  readResult

/-- Provider from `app/init.go`. -/
structure Provider where
  name : String
  baseURL : String
  apiKeys : List String
deriving DecidableEq

/-- getGroups from `app/init.go` lines 12-30: copy every configured group
and entry, in order, with no validation. -/
def getGroups (cfg : Config) : List Group :=
  cfg.groups.map (fun g =>
    { name := g.name
      models := g.models.map (fun m => { weight := m.weight, provider := m.provider, name := m.name }) })

/-- getProviders from `app/init.go` lines 33-44. -/
def getProviders (cfg : Config) : List Provider :=
  cfg.providers.map (fun p => { name := p.name, baseURL := p.baseURL, apiKeys := p.apiKeys })

/-- getClients from `app/init.go` lines 47-65: one ProviderClient per
configured provider, keyed by name, with one KeyClient per API key. The Go
code builds each KeyClient by struct literal, so its usage map starts out
nil, which reads as empty. Only providers named in the config appear. -/
def getClients (cfg : Config) : List (String × ProviderClient) :=
  cfg.providers.foldl
    (fun acc p =>
      assocInsert acc p.name
        { providerName := p.name
          keyClients := p.apiKeys.map (fun k => { apiKey := k, modelUsage := [] }) })
    []

/-- App from `app/init.go` (the Logger and the wrapped HTTP server carry no
routing state beyond the API key inside Config). -/
structure App where
  config : Config
  groups : List Group
  providers : List Provider
  clients : List (String × ProviderClient)
deriving DecidableEq

/-- NewApp from `app/init.go` lines 100-110: assemble the app from the
parsed configuration. It performs no validation and cannot fail. -/
def NewApp (cfg : Config) : App :=
  { config := cfg
    groups := getGroups cfg
    providers := getProviders cfg
    clients := getClients cfg }

/-- Startup path of `main.go`: LoadConfig, then NewApp on success (a load
failure panics, so no app exists in that case). -/
def startup (readResult : Except String Config) : Except String App :=
  (LoadConfig readResult).map NewApp

/-! ## server package: chat-completions status mapping (src/server/handler.go) -/

/-- JSON value, as `encoding/json` produces into `any`. -/
inductive Json where
  | null
  | jbool (b : Bool)
  | jnum (n : Int)
  | jstr (s : String)
  | jarr (elems : List Json)
  | jobj (fields : List (String × Json))

/-- Status decision of `handleChatCompletions` (server/handler.go lines
188-204) before the request is dispatched. The argument is the result of
`json.Unmarshal(body, &chatReq)` into `map[string]any`: `none` when the
body is not valid JSON or its top level is not an object. Result: `some s`
when the handler stops with HTTP status `s`, `none` when it proceeds to the
streaming/non-streaming dispatch. -/
def handleChatCompletionsStatus (parsed : Option (List (String × Json))) : Option Nat :=
  match parsed with
  | none => some 500
  | some fields =>
    match lookupAssoc fields "model" with
    | some (Json.jstr _) => none
    | _ => some 400

/-! ## server package: compression (src/server/compression.go) -/

/-- Boolean prefix test on character lists, with the semantics of Go
`strings.HasPrefix`. -/
def startsWithChars : List Char → List Char → Bool
  | [], _ => true
  | _ :: _, [] => false
  | a :: as, b :: bs => a == b && startsWithChars as bs

/-- Boolean substring test on character lists, with the semantics of Go
`strings.Contains` (first argument: haystack; second: needle). -/
def listHasSub : List Char → List Char → Bool
  | [], sub => sub.isEmpty
  | c :: tl, sub => startsWithChars sub (c :: tl) || listHasSub tl sub

/-- Go `strings.Contains` on strings. -/
def goContains (s sub : String) : Bool :=
  listHasSub s.data sub.data

/-- Response encoding the compression layer can produce. -/
inductive Encoding where
  | identity
  | gzip
  | br
deriving DecidableEq

/-- Encoding choice of `compressionMiddleware` (server/compression.go lines
50-78): gzip exactly when `Accept-Encoding` contains the substring
`gzip`, otherwise the handler runs on the bare writer. No other branch
exists in the middleware. -/
def selectEncoding (acceptEncoding : String) : Encoding :=
  if goContains acceptEncoding "gzip" then Encoding.gzip else Encoding.identity

/-! ## server package: routing, CORS preflight, authentication
(src/server/handler.go, server/models.go) -/

/-- Byte view of a string as fed to `subtle.ConstantTimeCompare`
(`[]byte(s)`); character codes stand in for UTF-8 bytes, which preserves
equality and inequality of the compared strings. -/
def strBytes (s : String) : List Nat :=
  s.data.map Char.toNat

/-- ConstantTimeCompare from `crypto/subtle`: 0 on length mismatch,
otherwise 1 exactly when the accumulated OR of the bytewise XORs is 0. -/
def constantTimeCompare (x y : List Nat) : Nat :=
  if x.length ≠ y.length then 0
  else if (List.zipWith (fun a b => a ^^^ b) x y).foldl (fun a b => a ||| b) 0 = 0 then 1
  else 0

/-- Incoming HTTP request, restricted to the fields the routing and CORS
logic reads. `origin` and `acrHeaders` are the `Origin` and
`Access-Control-Request-Headers` header values, empty when absent. -/
structure HttpRequest where
  method : String
  path : String
  origin : String
  acrHeaders : String
  authorization : String
deriving DecidableEq

/-- Outcome of the server-side handling before the chat pipeline runs:
either a finished response (status, headers in the order they are set,
body as the message passed to the writer), or entry into
`handleChatCompletions`. -/
inductive ServerStep where
  | respond (status : Nat) (headers : List (String × String)) (body : String)
  | handleChat
deriving DecidableEq

/-- CORS preflight answer of `Server.HandleRequest` (server/handler.go
lines 106-144): echo the Origin (or `*`), echo the requested headers (or
the default list), fixed methods, credentials, max-age and Vary headers,
status 204 with an empty body. -/
def corsPreflightResponse (r : HttpRequest) : ServerStep :=
  let origin := if r.origin = "" then "*" else r.origin
  let allowHeaders := if r.acrHeaders ≠ "" then r.acrHeaders else "Authorization, Content-Type, Accept"
  ServerStep.respond 204
    [("Access-Control-Allow-Origin", origin),
     ("Access-Control-Allow-Methods", "GET, POST, OPTIONS, PUT, DELETE"),
     ("Access-Control-Allow-Headers", allowHeaders),
     ("Access-Control-Allow-Credentials", "true"),
     ("Access-Control-Max-Age", "86400"),
     ("Content-Type", "text/plain"),
     ("Content-Length", "0"),
     ("Vary", "Origin, Access-Control-Request-Method, Access-Control-Request-Headers")]
    ""

/-- HandleRequest from `server/handler.go` lines 55-175, reduced to its
control flow: OPTIONS requests get the CORS preflight answer before any
authentication; every other request is authenticated with
`subtle.ConstantTimeCompare` against `"Bearer " + apiKey` (mismatch: 401
with `http.Error` message `Invalid or missing API key`); authenticated
POSTs to `/v1/chat/completions` enter `handleChatCompletions`; everything
else gets 404 `Not found`. -/
def handleRequestStep (apiKey : String) (r : HttpRequest) : ServerStep :=
  if r.method = "OPTIONS" then corsPreflightResponse r
  else if constantTimeCompare (strBytes r.authorization) (strBytes ("Bearer " ++ apiKey)) ≠ 1 then
    ServerStep.respond 401 [] "Invalid or missing API key"
  else if r.path = "/v1/chat/completions" ∧ r.method = "POST" then ServerStep.handleChat
  else ServerStep.respond 404 [] "Not found"

/-- Route table of `Server.ListenAndServe` (server/models.go second
revision, lines 77-89): `/v1/chat/completions` goes to the gateway handler;
`/v1/models` goes to `HandleModelsRequest` (server/models.go lines 24-43),
which answers 405 `method not allowed` to any non-GET method and otherwise
the JSON models list (its body is the serialized registry, abstracted as
the `modelsBody` argument); `/health` answers 200 `OK` to every method;
anything else falls to the default mux 404. The
compression middleware wrapped around the first two routes only re-encodes
the body (see `selectEncoding`) and never changes status, routing or the
headers stated here, so it is modelled separately. -/
def routeStep (apiKey : String) (modelsBody : String) (r : HttpRequest) : ServerStep :=
  if r.path = "/v1/chat/completions" then handleRequestStep apiKey r
  else if r.path = "/v1/models" then
    if r.method = "GET" then ServerStep.respond 200 [("Content-Type", "application/json")] modelsBody
    else ServerStep.respond 405 [] "method not allowed"
  else if r.path = "/health" then ServerStep.respond 200 [] "OK"
  else ServerStep.respond 404 [] "404 page not found"

/-! ## server package: SSE relay loop (src/server/handler.go lines 236-262) -/

/-- Result of one upstream `stream.Recv()` as the relay loop sees it: a
chunk, end-of-stream (`io.EOF`), or any other receive error. -/
inductive RecvOutcome where
  | chunk (c : StreamChunk)
  | eofErr
  | otherErr
deriving DecidableEq

/-- One Server-Sent-Events frame written to the client: a `data: <json>`
frame for a chunk, or the terminal `data: [DONE]` frame. -/
inductive SSEFrame where
  | data (c : StreamChunk)
  | done
deriving DecidableEq

/-- Streaming relay loop of `handleChatCompletions` (server/handler.go
lines 236-262): each received chunk is marshalled and written as one
`data:` frame (marshalling a chunk record cannot fail); `io.EOF` writes
`data: [DONE]` and returns; any other receive error logs and returns
without a `[DONE]` frame. The frames are listed in emission order. -/
def relayLoop : List RecvOutcome → List SSEFrame
  | [] => []
  | RecvOutcome.chunk c :: rest => SSEFrame.data c :: relayLoop rest
  | RecvOutcome.eofErr :: _ => [SSEFrame.done]
  | RecvOutcome.otherErr :: _ => []

/-! ## Concrete inputs used by individual claims -/

/-- Key client of the weighted-balancing test vector
(`TestWeightedBalancingDistributesLoad`, app/app_test.go): 100 tokens on
`model-expensive`, 150 on `model-cheap`. -/
def c1Key : KeyClient :=
  { apiKey := "key1", modelUsage := [("model-expensive", 100), ("model-cheap", 150)] }

/-- Clients map of the weighted-balancing test vector: one provider with
one key. -/
def c1Clients : List (String × ProviderClient) :=
  [("openai", { providerName := "openai", keyClients := [c1Key] })]

/-- Group entries of the weighted-balancing test vector: `model-expensive`
with weight 2 before `model-cheap` with weight 1. -/
def c1Models : List Model :=
  [ { weight := 2, provider := "openai", name := "model-expensive" },
    { weight := 1, provider := "openai", name := "model-cheap" } ]

/-- Fresh key client for the streaming-accounting witness. -/
def c2Key : KeyClient := { apiKey := "k-stream", modelUsage := [] }

/-- Stream of the duplicate-report scenario: two finish-like chunks (empty
delta content) carrying cumulative totals 30 and then 77. -/
def c2Chunks : List StreamChunk :=
  [ { choices := [{ finishReason := "", delta := { content := "", reasoningContent := "" } }],
      usage := some { totalTokens := 30 } },
    { choices := [{ finishReason := "", delta := { content := "", reasoningContent := "" } }],
      usage := some { totalTokens := 77 } } ]

/-- Configuration violating all three startup-validation rules at once: a
group entry referencing the undeclared provider `nosuch`, a group with an
empty model list, and an unset `api_key`. -/
def badCfg : Config :=
  { port := 8080, apiKey := "", errorPenalty := 0, requestPenalty := 0,
    groups := [ { name := "g", models := [ { weight := 1, provider := "nosuch", name := "m" } ] },
                { name := "empty", models := [] } ],
    providers := [] }

/-- Key client with 10 recorded tokens on model `m`. -/
def c6Key : KeyClient := { apiKey := "k6", modelUsage := [("m", 10)] }

/-- POST to the chat endpoint carrying a wrong bearer token. -/
def c8Req : HttpRequest :=
  { method := "POST", path := "/v1/chat/completions", origin := "", acrHeaders := "",
    authorization := "Bearer wrong" }

/-- CORS preflight aimed at the models endpoint. -/
def c9PreflightModels : HttpRequest :=
  { method := "OPTIONS", path := "/v1/models", origin := "http://example.test",
    acrHeaders := "Authorization", authorization := "" }

/-- Group whose single entry references provider `p`, which the clients map
does not contain. -/
def c10Groups : List Group :=
  [ { name := "g", models := [ { weight := 1, provider := "p", name := "m" } ] } ]

/-- Empty clients map: no provider was configured. -/
def c10Clients : List (String × ProviderClient) := []

/-! ## Helper lemmas -/

/-- Reading back the key just written into an association list yields the
written value. -/
theorem lookupAssoc_assocInsert_same {α : Type} (l : List (String × α)) (k : String) (v : α) :
    lookupAssoc (assocInsert l k v) k = some v := by
  induction l with
  | nil => simp [assocInsert, lookupAssoc]
  | cons hd tl ih =>
    obtain ⟨k0, v0⟩ := hd
    by_cases h : k0 = k
    · simp [assocInsert, lookupAssoc, h]
    · simp [assocInsert, lookupAssoc, h, ih]

/-- IncrementUsage adds exactly its argument to the counter it addresses. -/
theorem usage_IncrementUsage_same (kc : KeyClient) (model : String) (d : Int) :
    (kc.IncrementUsage model d).Usage model = kc.Usage model + d := by
  simp [KeyClient.IncrementUsage, KeyClient.Usage, lookupZero, lookupAssoc_assocInsert_same]

/-! ## Claim C1 — weighted selection -/

/-- Claim C1 (code_bug evidence). On the weighted-balancing vector of the
test suite of the repository itself (`TestWeightedBalancingDistributesLoad`),
`getClient` returns `model-expensive`, the pair with the smallest raw
usage, even though the weighted usage of `model-cheap` (150 × 1) is
strictly below that of `model-expensive` (100 × 2): the selector never
multiplies by the entry weight, contradicting both the specification and
the test. -/
theorem getClient_ignores_weight_on_test_vector :
    getClient c1Clients c1Models = ("openai", "model-expensive", some c1Key) ∧
    c1Key.Usage "model-cheap" * 1 < c1Key.Usage "model-expensive" * 2 := by
  decide

/-! ## Claim C6 — negative usage deltas -/

/-- Claim C6 counterexample. A negative delta is not rejected: incrementing by
−3 moves the stored counter from 10 to 7, so the operation decrements
rather than failing and leaving the counter unchanged. -/
theorem incrementUsage_negative_delta_decrements :
    (c6Key.IncrementUsage "m" (-3)).Usage "m" = 7 ∧
    c6Key.Usage "m" = 10 ∧
    (c6Key.IncrementUsage "m" (-3)).Usage "m" ≠ c6Key.Usage "m" := by
  decide

/-- Claim C6 (amended). IncrementUsage performs no sign check: for every delta,
positive, zero or negative, it adds the delta to the addressed
(credential, model) counter and never fails. -/
theorem incrementUsage_adds_unconditionally (kc : KeyClient) (model : String) (d : Int) :
    (kc.IncrementUsage model d).Usage model = kc.Usage model + d :=
  usage_IncrementUsage_same kc model d

/-! ## Claim C3 — request-body error statuses -/

/-- Claim C3 counterexample. A body that does not unmarshal into a JSON object
(malformed JSON included) is answered with status 500, not with the 400
the claim states. -/
theorem malformed_json_gets_500_not_400 :
    handleChatCompletionsStatus none = some 500 ∧
    handleChatCompletionsStatus none ≠ some 400 := by
  decide

/-- Claim C3 (amended). A body that fails to unmarshal into a JSON object gets
status 500 (`Error unmarshalling request body`); a JSON object whose
`model` field is missing or not a string gets status 400; a JSON object
with a string `model` proceeds past this gate. -/
theorem chatCompletions_status_mapping :
    handleChatCompletionsStatus none = some 500 ∧
    ∀ fields : List (String × Json),
      (handleChatCompletionsStatus (some fields) = some 400 ↔
        ∀ s, lookupAssoc fields "model" ≠ some (Json.jstr s)) ∧
      (handleChatCompletionsStatus (some fields) = none ↔
        ∃ s, lookupAssoc fields "model" = some (Json.jstr s)) := by
  refine ⟨rfl, fun fields => ?_⟩
  rcases h : lookupAssoc fields "model" with _ | j
  · simp [handleChatCompletionsStatus, h]
  · cases j <;> simp [handleChatCompletionsStatus, h]

/-! ## Claim C4 — startup validation -/

/-- Claim C4 counterexample. `badCfg` leaves `api_key` unset, contains an empty
group and a group entry referencing an undeclared provider, yet startup
accepts it and constructs the router. -/
theorem startup_accepts_invalid_config :
    badCfg.apiKey = "" ∧
    (∃ g ∈ badCfg.groups, g.models = []) ∧
    (∃ g ∈ badCfg.groups, ∃ m ∈ g.models, ∀ p ∈ badCfg.providers, p.name ≠ m.provider) ∧
    startup (Except.ok badCfg) = Except.ok (NewApp badCfg) := by
  refine ⟨rfl, ?_, ?_, rfl⟩
  · decide
  · decide

/-- Claim C4 (amended). Startup performs no semantic validation: LoadConfig
fails only when the file read or unmarshal fails, NewApp succeeds on every
parsed configuration — including `badCfg` — and the defects surface only
at request time, where the group naming an unknown provider resolves to
empty provider and model strings with a nil key client and nil error, and
the empty group produces a per-request error. -/
theorem startup_no_semantic_validation :
    (∀ cfg : Config, startup (Except.ok cfg) = Except.ok (NewApp cfg)) ∧
    (∀ e : String, startup (Except.error e) = Except.error e) ∧
    lookupAssoc (NewApp badCfg).clients "nosuch" = none ∧
    appHandleRequest (NewApp badCfg).groups (NewApp badCfg).clients "g" =
      Dispatch.call "" "" none ∧
    getClientForGroup (NewApp badCfg).groups (NewApp badCfg).clients "empty" =
      Except.error "no models found for group: empty" := by
  refine ⟨fun _ => rfl, fun _ => rfl, rfl, rfl, rfl⟩

/-! ## Claim C2 — streaming usage accounting -/

/-- One Recv moves the ledger counter and the last-reported scalar by the
same amount, namely `recvDelta`. -/
theorem recvStep_usage (model : String) (u : Int) (kc : KeyClient) (resp : StreamChunk) :
    (recvStep model (u, kc) resp).2.Usage model = kc.Usage model + recvDelta u resp ∧
    (recvStep model (u, kc) resp).1 = u + recvDelta u resp := by
  unfold recvStep recvDelta
  cases hf : isFinishSignal resp
  · cases hu : resp.usage <;> simp [chunkTotal, hu, hf]
  · cases hu : resp.usage with
    | none => simp [chunkTotal, hu]
    | some v =>
      simp only [chunkTotal, hu, Option.map_some]
      rcases lt_or_le u v.totalTokens with h | h
      · have hpos : v.totalTokens - u > 0 := by omega
        simp [hpos, h, usage_IncrementUsage_same]
      · have hneg : ¬ v.totalTokens - u > 0 := by omega
        have hneg2 : ¬ u < v.totalTokens := by omega
        simp [hneg, hneg2]

/-- recvDelta is positive exactly on a finish-signal chunk that carries a
usage object whose total exceeds the last reported usage. -/
theorem recvDelta_pos_iff (u : Int) (resp : StreamChunk) :
    0 < recvDelta u resp ↔
      isFinishSignal resp = true ∧ ∃ t, chunkTotal resp = some t ∧ u < t := by
  unfold recvDelta
  cases hu : chunkTotal resp with
  | none => simp
  | some t =>
    cases hf : isFinishSignal resp
    · simp [hf]
    · rcases lt_or_le u t with h | h
      · simp [hf, h]
      · have : ¬ u < t := by omega
        simp [hf, this]

/-- On a finish-signal chunk carrying usage, the last-reported scalar
becomes the maximum of its old value and the reported total. -/
theorem recvStep_fst_max (model : String) (u : Int) (kc : KeyClient) (c : StreamChunk)
    (v : UsageInfo) (hf : isFinishSignal c = true) (hu : c.usage = some v) :
    (recvStep model (u, kc) c).1 = max u v.totalTokens := by
  unfold recvStep
  simp only [hf, hu, if_true]
  rcases le_or_lt v.totalTokens u with h | h
  · have : ¬ v.totalTokens - u > 0 := by omega
    simp [this, max_eq_left h]
  · have : v.totalTokens - u > 0 := by omega
    simp [this, max_eq_right h.le]

/-- A chunk that is not a finish signal, or carries no usage, leaves the
state untouched. -/
theorem recvStep_id (model : String) (st : Int × KeyClient) (c : StreamChunk)
    (h : isFinishSignal c = false ∨ c.usage = none) :
    recvStep model st c = st := by
  unfold recvStep
  rcases h with h | h
  · simp [h]
  · cases hf : isFinishSignal c <;> simp [h, hf]

/-- Over a whole stream, the last-reported scalar is the running maximum of
the totals reported by finish-signal chunks. -/
theorem foldl_recvStep_fst (model : String) (chunks : List StreamChunk) :
    ∀ (u : Int) (kc : KeyClient),
      (chunks.foldl (recvStep model) (u, kc)).1 = (streamTotals chunks).foldl max u := by
  induction chunks with
  | nil => intro u kc; simp [streamTotals]
  | cons c cs ih =>
    intro u kc
    simp only [List.foldl_cons]
    cases hf : isFinishSignal c
    · rw [recvStep_id model (u, kc) c (Or.inl hf)]
      have ht : streamTotals (c :: cs) = streamTotals cs := by
        simp [streamTotals, List.filterMap_cons, hf]
      rw [ht, ih u kc]
    · cases hu : c.usage with
      | none =>
        rw [recvStep_id model (u, kc) c (Or.inr hu)]
        have ht : streamTotals (c :: cs) = streamTotals cs := by
          simp [streamTotals, List.filterMap_cons, hf, chunkTotal, hu]
        rw [ht, ih u kc]
      | some v =>
        have ht : streamTotals (c :: cs) = v.totalTokens :: streamTotals cs := by
          simp [streamTotals, List.filterMap_cons, hf, chunkTotal, hu]
        have h1 : recvStep model (u, kc) c =
            ((recvStep model (u, kc) c).1, (recvStep model (u, kc) c).2) := rfl
        rw [ht, List.foldl_cons, h1, ih, recvStep_fst_max model u kc c v hf hu]

/-- Over a whole stream, the ledger counter grows by exactly as much as the
last-reported scalar does. -/
theorem foldl_recvStep_usage (model : String) (chunks : List StreamChunk) :
    ∀ (u : Int) (kc : KeyClient),
      (chunks.foldl (recvStep model) (u, kc)).2.Usage model
        = kc.Usage model + ((chunks.foldl (recvStep model) (u, kc)).1 - u) := by
  induction chunks with
  | nil => intro u kc; simp
  | cons c cs ih =>
    intro u kc
    simp only [List.foldl_cons]
    obtain ⟨hU, hF⟩ := recvStep_usage model u kc c
    have h1 : recvStep model (u, kc) c =
        ((recvStep model (u, kc) c).1, (recvStep model (u, kc) c).2) := rfl
    rw [h1]
    have ih2 := ih (recvStep model (u, kc) c).1 (recvStep model (u, kc) c).2
    omega

/-- Folding max over a list that contains its upper bound lands on that
bound. -/
theorem foldl_max_eq_of_mem (l : List Int) :
    ∀ (a T : Int), a ≤ T → (∀ t ∈ l, t ≤ T) → (T ∈ l ∨ a = T) → l.foldl max a = T := by
  induction l with
  | nil =>
    intro a T _ _ hm
    rcases hm with hm | hm
    · cases hm
    · simpa using hm
  | cons b bs ih =>
    intro a T haT hub hm
    simp only [List.foldl_cons]
    have hbT : b ≤ T := hub b (by simp)
    have hub2 : ∀ t ∈ bs, t ≤ T := fun t ht => hub t (by simp [ht])
    rcases hm with hm | hm
    · rcases List.mem_cons.mp hm with hb | hb
      · subst hb
        rw [max_eq_right haT]
        exact ih T T le_rfl hub2 (Or.inr rfl)
      · exact ih (max a b) T (max_le haT hbT) hub2 (Or.inl hb)
    · subst hm
      rw [max_eq_left hbT]
      exact ih a a le_rfl hub2 (Or.inr rfl)

/-- Claim C2: each Recv that returns a chunk moves the (credential, model) ledger
counter and the last-reported scalar by `recvDelta`, which is positive
exactly when the chunk is a finish signal carrying a usage object whose
total exceeds the last report; consequently, over a stream whose
finish-signal usage reports have maximum `T ≥ 0`, the total ledger
increment is exactly `T` — duplicate or repeated reports add nothing. -/
theorem recv_stream_usage_accounting (model : String) (kc0 : KeyClient)
    (chunks : List StreamChunk) (T : Int)
    (hT : 0 ≤ T) (hmem : T ∈ streamTotals chunks)
    (hub : ∀ t ∈ streamTotals chunks, t ≤ T) :
    (∀ (u : Int) (kc : KeyClient) (resp : StreamChunk),
        (recvStep model (u, kc) resp).2.Usage model = kc.Usage model + recvDelta u resp ∧
        (recvStep model (u, kc) resp).1 = u + recvDelta u resp ∧
        (0 < recvDelta u resp ↔
          isFinishSignal resp = true ∧ ∃ t, chunkTotal resp = some t ∧ u < t)) ∧
    (processStream model kc0 chunks).2.Usage model = kc0.Usage model + T := by
  constructor
  · intro u kc resp
    obtain ⟨h1, h2⟩ := recvStep_usage model u kc resp
    exact ⟨h1, h2, recvDelta_pos_iff u resp⟩
  · have h1 := foldl_recvStep_usage model chunks 0 kc0
    have h2 := foldl_recvStep_fst model chunks 0 kc0
    have h3 : (streamTotals chunks).foldl max 0 = T :=
      foldl_max_eq_of_mem (streamTotals chunks) 0 T hT hub (Or.inl hmem)
    unfold processStream
    omega

/-- Claim C2 witness: on the duplicate-report stream whose two finish-like chunks
report cumulative totals 30 and 77, the ledger grows by exactly 77. -/
theorem recv_stream_usage_accounting_witness :
    (processStream "m" c2Key c2Chunks).2.Usage "m" = c2Key.Usage "m" + 77 :=
  (recv_stream_usage_accounting "m" c2Key c2Chunks 77 (by decide) (by decide) (by decide)).2

/-! ## Claim C5 — response compression -/

/-- startsWithChars agrees with the existence of a completing suffix. -/
theorem startsWithChars_iff (sub : List Char) :
    ∀ s : List Char, startsWithChars sub s = true ↔ ∃ t, s = sub ++ t := by
  induction sub with
  | nil =>
    intro s
    simp [startsWithChars]
  | cons a as ih =>
    intro s
    cases s with
    | nil =>
      simp [startsWithChars]
    | cons b bs =>
      simp only [startsWithChars, Bool.and_eq_true, beq_iff_eq, ih bs, List.cons_append,
        List.cons.injEq]
      constructor
      · rintro ⟨rfl, t, rfl⟩
        exact ⟨t, rfl, rfl⟩
      · rintro ⟨t, rfl, rfl⟩
        exact ⟨rfl, t, rfl⟩

/-- listHasSub agrees with the existence of a decomposition around the
needle. -/
theorem listHasSub_iff (sub : List Char) :
    ∀ s : List Char, listHasSub s sub = true ↔ ∃ l r, s = l ++ sub ++ r := by
  intro s
  induction s with
  | nil =>
    simp only [listHasSub, List.isEmpty_iff]
    constructor
    · rintro rfl
      exact ⟨[], [], rfl⟩
    · rintro ⟨l, r, h⟩
      rcases List.append_eq_nil.mp (List.append_eq_nil.mp h.symm).1 with ⟨-, h2⟩
      exact h2
  | cons c tl ih =>
    simp only [listHasSub, Bool.or_eq_true, ih, startsWithChars_iff]
    constructor
    · rintro (⟨t, ht⟩ | ⟨l, r, rfl⟩)
      · exact ⟨[], t, by simp [ht]⟩
      · exact ⟨c :: l, r, by simp⟩
    · rintro ⟨l, r, hl⟩
      cases l with
      | nil =>
        exact Or.inl ⟨r, by simpa using hl⟩
      | cons x xs =>
        simp only [List.cons_append, List.cons.injEq] at hl
        exact Or.inr ⟨xs, r, hl.2⟩

/-- Claim C5 counterexample. An Accept-Encoding of `br, gzip` yields gzip, not
Brotli, and an Accept-Encoding of just `br` yields no compression at all:
the middleware never selects Brotli. -/
theorem brotli_never_selected :
    selectEncoding "br, gzip" = Encoding.gzip ∧
    Encoding.gzip ≠ Encoding.br ∧
    selectEncoding "br" = Encoding.identity := by
  decide

/-- Claim C5 (amended). The compression layer chooses gzip exactly when the
Accept-Encoding header contains the substring `gzip`, and the identity
encoding otherwise; Brotli is never chosen, whatever the header says. -/
theorem compression_selects_gzip_or_identity (ae : String) :
    (selectEncoding ae = Encoding.gzip ↔ ∃ l r, ae.data = l ++ "gzip".data ++ r) ∧
    selectEncoding ae ≠ Encoding.br := by
  unfold selectEncoding goContains
  by_cases h : listHasSub ae.data "gzip".data = true
  · have h2 := (listHasSub_iff "gzip".data ae.data).mp h
    refine ⟨⟨fun _ => h2, fun _ => by simp [h]⟩, by simp [h]⟩
  · have h2 : ¬ ∃ l r, ae.data = l ++ "gzip".data ++ r :=
      fun hc => h ((listHasSub_iff "gzip".data ae.data).mpr hc)
    simp only [Bool.not_eq_true] at h
    refine ⟨⟨fun hcon => ?_, fun hc => absurd hc h2⟩, by simp [h]⟩
    simp [h] at hcon

/-! ## Claim C7 — SSE termination -/

/-- Claim C7: a stream whose receives are chunks followed by `io.EOF` relays one
`data:` frame per chunk and then exactly one final `[DONE]` frame; a
stream cut off by any other receive error relays its chunks and no
`[DONE]`; and no relay output ever contains more than one `[DONE]`. -/
theorem sse_done_emission :
    (∀ (cs : List StreamChunk) (rest : List RecvOutcome),
        relayLoop (cs.map RecvOutcome.chunk ++ RecvOutcome.eofErr :: rest)
          = cs.map SSEFrame.data ++ [SSEFrame.done]) ∧
    (∀ (cs : List StreamChunk) (rest : List RecvOutcome),
        relayLoop (cs.map RecvOutcome.chunk ++ RecvOutcome.otherErr :: rest)
          = cs.map SSEFrame.data) ∧
    (∀ rs : List RecvOutcome, (relayLoop rs).count SSEFrame.done ≤ 1) := by
  refine ⟨?_, ?_, ?_⟩
  · intro cs rest
    induction cs with
    | nil => simp [relayLoop]
    | cons c cs ih => simp [relayLoop, ih]
  · intro cs rest
    induction cs with
    | nil => simp [relayLoop]
    | cons c cs ih => simp [relayLoop, ih]
  · intro rs
    induction rs with
    | nil => simp [relayLoop]
    | cons o rest ih =>
      cases o with
      | chunk c => simpa [relayLoop] using ih
      | eofErr => simp [relayLoop]
      | otherErr => simp [relayLoop]

/-! ## Claim C8 — bearer authentication -/

/-- A Nat OR is zero only when both operands are. -/
theorem lor_eq_zero_parts {a b : Nat} (h : a ||| b = 0) : a = 0 ∧ b = 0 := by
  constructor
  · apply Nat.eq_of_testBit_eq
    intro i
    have hb := congrArg (fun n => Nat.testBit n i) h
    simp [Nat.testBit_or] at hb
    simp [hb.1]
  · apply Nat.eq_of_testBit_eq
    intro i
    have hb := congrArg (fun n => Nat.testBit n i) h
    simp [Nat.testBit_or] at hb
    simp [hb.2]

/-- Folding OR over a list yields zero exactly when the accumulator and
every element are zero. -/
theorem foldl_lor_eq_zero (l : List Nat) :
    ∀ a : Nat, l.foldl (fun x y => x ||| y) a = 0 ↔ a = 0 ∧ ∀ v ∈ l, v = 0 := by
  induction l with
  | nil => intro a; simp
  | cons b bs ih =>
    intro a
    simp only [List.foldl_cons, ih (a ||| b), List.mem_cons]
    constructor
    · rintro ⟨hab, hall⟩
      obtain ⟨ha, hb⟩ := lor_eq_zero_parts hab
      refine ⟨ha, fun v hv => ?_⟩
      rcases hv with rfl | hv
      · exact hb
      · exact hall v hv
    · rintro ⟨ha, hall⟩
      have hb : b = 0 := hall b (Or.inl rfl)
      refine ⟨by simp [ha, hb], fun v hv => hall v (Or.inr hv)⟩

/-- Equal-length lists whose pointwise XORs are all zero are equal. -/
theorem zipWith_xor_all_zero (x : List Nat) :
    ∀ y : List Nat, x.length = y.length →
      (∀ v ∈ List.zipWith (fun a b => a ^^^ b) x y, v = 0) → x = y := by
  induction x with
  | nil =>
    intro y hlen _
    exact (List.length_eq_zero.mp hlen.symm).symm
  | cons a as ih =>
    intro y hlen hall
    cases y with
    | nil => simp at hlen
    | cons b bs =>
      simp only [List.zipWith_cons_cons, List.mem_cons] at hall
      have ha : a = b := Nat.xor_eq_zero.mp (hall (a ^^^ b) (Or.inl rfl))
      have hbs : as = bs := by
        apply ih bs (by simpa using hlen)
        intro v hv
        exact hall v (Or.inr hv)
      rw [ha, hbs]

/-- Zipping a list with itself under XOR yields only zeros. -/
theorem zipWith_xor_self_zero (x : List Nat) :
    ∀ v ∈ List.zipWith (fun a b => a ^^^ b) x x, v = 0 := by
  induction x with
  | nil => simp
  | cons a as ih =>
    simp only [List.zipWith_cons_cons, List.mem_cons]
    rintro v (rfl | hv)
    · exact Nat.xor_self a
    · exact ih v hv

/-- ConstantTimeCompare returns 1 exactly on equal byte strings. -/
theorem constantTimeCompare_eq_one_iff (x y : List Nat) :
    constantTimeCompare x y = 1 ↔ x = y := by
  unfold constantTimeCompare
  by_cases hlen : x.length = y.length
  · rw [if_neg (not_ne_iff.mpr hlen)]
    by_cases hz : (List.zipWith (fun a b => a ^^^ b) x y).foldl (fun a b => a ||| b) 0 = 0
    · rw [if_pos hz]
      have hall := ((foldl_lor_eq_zero _ 0).mp hz).2
      exact ⟨fun _ => zipWith_xor_all_zero x y hlen hall, fun _ => rfl⟩
    · rw [if_neg hz]
      constructor
      · intro h
        exact absurd h (by decide)
      · rintro rfl
        exfalso
        apply hz
        rw [foldl_lor_eq_zero]
        exact ⟨rfl, zipWith_xor_self_zero x⟩
  · rw [if_pos hlen]
    constructor
    · intro h
      exact absurd h (by decide)
    · rintro rfl
      exact absurd rfl hlen

/-- Character codes determine the string: the byte view is injective. -/
theorem strBytes_inj {s t : String} (h : strBytes s = strBytes t) : s = t := by
  have hd : s.data = t.data := by
    have hinj : Function.Injective Char.toNat := fun c d hc => Char.ext (UInt32.ext hc)
    exact List.map_injective_iff.mpr hinj h
  cases s; cases t
  exact congrArg String.mk hd

/-- Claim C8: for every non-OPTIONS request reaching the gateway handler, an
Authorization header differing from `Bearer ` + api_key is answered 401
`Invalid or missing API key` without dispatching; a matching header lets
processing continue (to the chat handler for a POST to the completions
path, to the 404 branch otherwise); and the comparison primitive the
handler uses, `subtle.ConstantTimeCompare`, decides exactly string
equality. -/
theorem auth_constant_time_gate (apiKey : String) (r : HttpRequest)
    (hm : r.method ≠ "OPTIONS") :
    (r.authorization ≠ "Bearer " ++ apiKey →
      handleRequestStep apiKey r = ServerStep.respond 401 [] "Invalid or missing API key") ∧
    (r.authorization = "Bearer " ++ apiKey →
      handleRequestStep apiKey r =
        (if r.path = "/v1/chat/completions" ∧ r.method = "POST" then ServerStep.handleChat
         else ServerStep.respond 404 [] "Not found")) ∧
    (∀ x y : List Nat, constantTimeCompare x y = 1 ↔ x = y) := by
  refine ⟨?_, ?_, fun x y => constantTimeCompare_eq_one_iff x y⟩
  · intro hne
    have hc : constantTimeCompare (strBytes r.authorization) (strBytes ("Bearer " ++ apiKey)) ≠ 1 :=
      fun h => hne (strBytes_inj ((constantTimeCompare_eq_one_iff _ _).mp h))
    unfold handleRequestStep
    rw [if_neg hm, if_pos hc]
  · intro heq
    have hc : constantTimeCompare (strBytes r.authorization) (strBytes ("Bearer " ++ apiKey)) = 1 :=
      (constantTimeCompare_eq_one_iff _ _).mpr (by rw [heq])
    unfold handleRequestStep
    rw [if_neg hm, if_neg (by simp [hc])]

/-- Claim C8 witness: with configured key `secret`, a POST to the completions
path bearing `Bearer wrong` is answered 401 `Invalid or missing API key`. -/
theorem auth_constant_time_gate_witness :
    handleRequestStep "secret" c8Req = ServerStep.respond 401 [] "Invalid or missing API key" :=
  (auth_constant_time_gate "secret" c8Req (by decide)).1 (by decide)

/-! ## Claim C9 — CORS preflight -/

/-- Claim C9 counterexample. An OPTIONS preflight aimed at `/v1/models` reaches
`HandleModelsRequest`, whose method guard rejects every non-GET with 405
`method not allowed` — not the 204 No Content the claim states for every
exposed endpoint. -/
theorem options_models_endpoint_405 :
    routeStep "k" "" c9PreflightModels = ServerStep.respond 405 [] "method not allowed" ∧
    ∀ (hs : List (String × String)) (b : String),
      routeStep "k" "" c9PreflightModels ≠ ServerStep.respond 204 hs b := by
  have h : routeStep "k" "" c9PreflightModels
      = ServerStep.respond 405 [] "method not allowed" := by decide
  refine ⟨h, fun hs b hc => ?_⟩
  rw [h] at hc
  injection hc with h1 h2 h3
  exact absurd h1 (by decide)

/-- Claim C9 (amended). Only OPTIONS requests to `/v1/chat/completions` receive
the 204 preflight answer, with Access-Control-Allow-Origin echoing the
Origin (or `*`), the fixed method list, allowed headers echoing
Access-Control-Request-Headers (or the default), credentials true, max-age
86400 and the Vary header covering Origin and the two CORS request
headers; an OPTIONS to `/v1/models` is answered 405 `method not allowed`
and an OPTIONS to `/health` is answered 200 `OK`. -/
theorem options_preflight_routing (apiKey modelsBody origin acrh auth : String) :
    routeStep apiKey modelsBody
        { method := "OPTIONS", path := "/v1/chat/completions", origin := origin,
          acrHeaders := acrh, authorization := auth } =
      ServerStep.respond 204
        [("Access-Control-Allow-Origin", if origin = "" then "*" else origin),
         ("Access-Control-Allow-Methods", "GET, POST, OPTIONS, PUT, DELETE"),
         ("Access-Control-Allow-Headers",
            if acrh ≠ "" then acrh else "Authorization, Content-Type, Accept"),
         ("Access-Control-Allow-Credentials", "true"),
         ("Access-Control-Max-Age", "86400"),
         ("Content-Type", "text/plain"),
         ("Content-Length", "0"),
         ("Vary", "Origin, Access-Control-Request-Method, Access-Control-Request-Headers")]
        "" ∧
    routeStep apiKey modelsBody
        { method := "OPTIONS", path := "/v1/models", origin := origin,
          acrHeaders := acrh, authorization := auth } =
      ServerStep.respond 405 [] "method not allowed" ∧
    routeStep apiKey modelsBody
        { method := "OPTIONS", path := "/health", origin := origin,
          acrHeaders := acrh, authorization := auth } =
      ServerStep.respond 200 [] "OK" := by
  refine ⟨rfl, ?_, ?_⟩
  · unfold routeStep
    rw [if_neg (by simp), if_pos rfl, if_neg (by simp)]
  · unfold routeStep
    rw [if_neg (by simp), if_neg (by simp), if_pos rfl]

/-! ## Claim C10 — silent nil client on unknown providers -/

/-- The selector loop leaves its state untouched when no entry contributes
a key client. -/
theorem getClientFold_no_candidates (clients : List (String × ProviderClient)) :
    ∀ models : List Model,
      (∀ m ∈ models, providerKCs clients m.provider = []) →
      getClientFold clients models = ⟨-1, "", "", none⟩ := by
  intro models
  unfold getClientFold
  induction models with
  | nil => intro _; rfl
  | cons m ms ih =>
    intro hall
    simp only [List.foldl_cons]
    have hm := hall m (by simp)
    have hstep :
        (match lookupAssoc clients m.provider with
          | some pClient =>
            pClient.keyClients.foldl
              (fun st kc =>
                let usage := kc.Usage m.name
                if st.minUsage = -1 ∨ usage < st.minUsage then
                  ⟨usage, m.provider, m.name, some kc⟩
                else st)
              (⟨-1, "", "", none⟩ : SelState)
          | none => (⟨-1, "", "", none⟩ : SelState)) = (⟨-1, "", "", none⟩ : SelState) := by
      cases hc : lookupAssoc clients m.provider with
      | none => rfl
      | some pc =>
        unfold providerKCs at hm
        rw [hc] at hm
        have hm2 : pc.keyClients = [] := hm
        change List.foldl _ _ pc.keyClients = _
        rw [hm2]
        rfl
    rw [hstep]
    exact ih (fun x hx => hall x (by simp [hx]))

/-- Claim C10: when a group exists with a non-empty entry list but the provider of
no entry contributes any key client (absent from the clients map, or
present with zero keys), getClientForGroup reports no error and returns
empty provider and model strings with a nil key client, and HandleRequest
then proceeds to invoke the upstream call on that nil client. -/
theorem unknown_provider_silent_nil_client (groups : List Group)
    (clients : List (String × ProviderClient)) (groupName : String)
    (hne : findGroupModels groups groupName ≠ [])
    (hnokc : ∀ m ∈ findGroupModels groups groupName, providerKCs clients m.provider = []) :
    getClientForGroup groups clients groupName = Except.ok ("", "", none) ∧
    appHandleRequest groups clients groupName = Dispatch.call "" "" none := by
  have hsel : getClient clients (findGroupModels groups groupName) = ("", "", none) := by
    unfold getClient
    rw [getClientFold_no_candidates clients (findGroupModels groups groupName) hnokc]
  have hok : getClientForGroup groups clients groupName = Except.ok ("", "", none) := by
    unfold getClientForGroup
    rw [if_neg (by simpa [List.isEmpty_iff] using hne), hsel]
  refine ⟨hok, ?_⟩
  unfold appHandleRequest
  rw [hok]

/-- Claim C10 witness: a group `g` whose only entry names provider `p`, against
an empty clients map, resolves without error to empty strings and a nil
key client, and the request handler proceeds to the upstream call on it. -/
theorem unknown_provider_silent_nil_client_witness :
    getClientForGroup c10Groups c10Clients "g" = Except.ok ("", "", none) ∧
    appHandleRequest c10Groups c10Clients "g" = Dispatch.call "" "" none :=
  unknown_provider_silent_nil_client c10Groups c10Clients "g" (by decide) (by decide)
